import Mathlib

/-!
Shallow embedding of the a-star repository (Rust): `src/grid_graph.rs`,
`src/pathfinding.rs` and the pieces of `src/main.rs` the claims refer to.

Modelling conventions:
* `f32` values are modelled by `Option α` for an arbitrary linear order
  `α`: `some q` is an ordinary (non-NaN) float value — Rust's `<`, `==`
  and `partial_cmp` restricted to non-NaN `f32` values are a decidable
  linear order — and `none` is NaN.  `partial_cmp` returns `None` exactly
  when one operand is NaN, `<`/`>` are `false` when one operand is NaN,
  and `+`/`*` propagate NaN; the operations below mirror that.  Concrete
  evaluations instantiate `α := ℤ` (the runs in question only produce
  integer-valued costs).  The Euclidean strategy of `main.rs` (which uses
  `sqrt`) plays no role in any claim and is not embedded; the uniform-cost
  strategy `zero_cost_function` is embedded and used for concrete runs.
* `u32` coordinates and `u8` tile costs are modelled by `Nat` (no
  arithmetic in the code can overflow them on the grids it accepts).
* Rust `HashMap`s are modelled by association lists with first-match
  lookup; `insert` conses at the front, which has exactly the `HashMap`
  lookup semantics (the new binding shadows any older one).  Every insert
  the search performs is for a key that is absent at that moment (proved
  below), so the key lists stay duplicate-free.
* The `BinaryHeap` is modelled by a list; `pop` removes one maximal
  element under the `Ord` instance of `VisitedGraphVertex`.  Which among
  several equal-priority elements is popped is tie-breaking that the heap
  leaves unspecified; no claim below depends on it.
* The unbounded `while` loops are modelled with explicit fuel; theorems
  below prove the chosen fuel is always sufficient, so the fuelled
  functions agree with the loops wherever the loops terminate.
-/

variable {α : Type} [LinearOrder α]

/-- Float addition: NaN propagates. -/
def fadd [Add α] : Option α → Option α → Option α
  | some a, some b => some (a + b)
  | _, _ => none

/-- Float multiplication: NaN propagates (the repository never builds the
`0 * ∞` corner cases). -/
def fmul [Mul α] : Option α → Option α → Option α
  | some a, some b => some (a * b)
  | _, _ => none

/-- Rust `a > b` on `f32`: false when either side is NaN. -/
def fgtB : Option α → Option α → Bool
  | some a, some b => decide (b < a)
  | _, _ => false

/-- Rust `a < b` on `f32`: false when either side is NaN. -/
def fltB : Option α → Option α → Bool
  | some a, some b => decide (a < b)
  | _, _ => false

/-- Rust `f32::partial_cmp`: `none` exactly when one operand is NaN. -/
def fpcmp : Option α → Option α → Option Ordering
  | some a, some b =>
      some (if a < b then Ordering.lt else if a = b then Ordering.eq else Ordering.gt)
  | _, _ => none

/-- Rust `GraphVertex` from `src/grid_graph.rs`. -/
structure GraphVertex where
  x : Nat
  y : Nat
deriving DecidableEq, Repr

/-- Rust `VisitedGraphVertex` from `src/grid_graph.rs`; the cost is an `f32`. -/
structure VisitedGraphVertex (α : Type) where
  x : Nat
  y : Nat
  cost : Option α
deriving DecidableEq, Repr

/-- Rust `GraphVertex::into_visited`. -/
def GraphVertex.into_visited (v : GraphVertex) (visit_cost : Option α) :
    VisitedGraphVertex α :=
  ⟨v.x, v.y, visit_cost⟩

/-- Rust `impl From<VisitedGraphVertex> for GraphVertex` (drops the cost). -/
def VisitedGraphVertex.toVertex (v : VisitedGraphVertex α) : GraphVertex :=
  ⟨v.x, v.y⟩

/-- Rust `impl PartialOrd for VisitedGraphVertex`: compare the costs, then
reverse the result (so the max-heap prioritises low cost). -/
def vertexPcmp (a b : VisitedGraphVertex α) : Option Ordering :=
  (fpcmp a.cost b.cost).map Ordering.swap

/-- Rust `impl Ord for VisitedGraphVertex`: `partial_cmp(..).unwrap_or(Equal)`. -/
def vertexCmp (a b : VisitedGraphVertex α) : Ordering :=
  (vertexPcmp a b).getD Ordering.eq

/-- Rust `Direction` from `src/grid_graph.rs`. -/
structure Direction where
  x : Int
  y : Int

def DIRECTION_UP : Direction := ⟨0, -1⟩
def DIRECTION_DOWN : Direction := ⟨0, 1⟩
def DIRECTION_LEFT : Direction := ⟨-1, 0⟩
def DIRECTION_RIGHT : Direction := ⟨1, 0⟩

def ALL_DIRECTIONS : List Direction :=
  [DIRECTION_UP, DIRECTION_DOWN, DIRECTION_LEFT, DIRECTION_RIGHT]

/-- Rust `GridGraph` from `src/grid_graph.rs`; `main.rs` builds `tiles` as
`height` rows (chunks of the raw pixel buffer) of length `width`. -/
structure GridGraph where
  width : Nat
  height : Nat
  tiles : List (List Nat)

/-- Rust `GridGraph::get_neighbouring_vertex`: bounds-checked step by one
direction; `none` when the neighbour would fall outside
`[0,width) × [0,height)`. -/
def GridGraph.get_neighbouring_vertex (g : GridGraph) (vertex : VisitedGraphVertex α)
    (direction : Direction) : Option GraphVertex :=
  let neighbour_x : Int := (vertex.x : Int) + direction.x
  let neighbour_y : Int := (vertex.y : Int) + direction.y
  if neighbour_x < 0 ∨ neighbour_y < 0 ∨ neighbour_x ≥ (g.width : Int) ∨
      neighbour_y ≥ (g.height : Int) then
    none
  else
    some ⟨neighbour_x.toNat, neighbour_y.toNat⟩

/-- Rust `GridGraph::get_cost` is `self.tiles[vertex.x][vertex.y]`: the OUTER
index is `x`, the inner index is `y`.  Rust panics when an index is out
of range; the model returns `none` there. -/
def GridGraph.get_cost (g : GridGraph) (vertex : GraphVertex) : Option Nat :=
  (g.tiles.get? vertex.x).bind (fun row => row.get? vertex.y)

/-- Rust `PathfindingOptions` from `src/main.rs`; both weights are `f32`. -/
structure PathfindingOptions (α : Type) where
  cost_weight : Option α
  heuristics_weight : Option α

/-- The cost-function signature from `src/pathfinding.rs`:
`(start, goal, last_visited, candidate, candidate_cost, options) → f32`. -/
abbrev CostFunc (α : Type) :=
  GraphVertex → GraphVertex → VisitedGraphVertex α → GraphVertex → Nat →
    PathfindingOptions α → Option α

/-- Rust `zero_cost_function` from `src/main.rs` (the uniform-cost strategy):
`(last_visited.cost + candidate_cost as f32) * cost_weight`. -/
def zero_cost_function [Add α] [Mul α] [NatCast α] : CostFunc α :=
  fun _ _ last_visited _ current_vertex_cost options =>
    fmul (fadd last_visited.cost (some (current_vertex_cost : α))) options.cost_weight

/-- First-match association-list lookup: `HashMap::get`. -/
def mlookup {β : Type} (m : List (GraphVertex × β)) (k : GraphVertex) : Option β :=
  match m with
  | [] => none
  | (k', v) :: rest => if k' = k then some v else mlookup rest k

/-- Rust `BinaryHeap::pop`: remove one maximal element under `vertexCmp`
(lowest cost, since the comparison is reversed). -/
def heapPopMax [DecidableEq α] : List (VisitedGraphVertex α) →
    Option (VisitedGraphVertex α × List (VisitedGraphVertex α))
  | [] => none
  | v :: rest =>
      let m := rest.foldl (fun a b => if vertexCmp b a = Ordering.gt then b else a) v
      some (m, (v :: rest).erase m)

/-- The mutable state of `execute_a_star`'s main loop. -/
structure AState (α : Type) where
  open_list : List (VisitedGraphVertex α)
  closed_list : List (GraphVertex × Option α)
  parent_map : List (GraphVertex × VisitedGraphVertex α)
  visited_vertices : List (VisitedGraphVertex α)
  visit_amount : Nat
  visit_neighbour_amount : Nat
deriving Repr

/-- The body of the `for direction in ALL_DIRECTIONS` loop in
`execute_a_star`: probe one neighbour of `current_vertex`; skip it if out
of bounds or already in the closed list; otherwise score it, update the
parent map (insert when no entry exists or the recorded predecessor's
cost is larger than `current_vertex.cost`), push it onto the frontier and
close it, recording `current_vertex.cost` under its key.  The `getD 0`
totalises the tile access where Rust's indexing would panic (possible on
non-square grids, see the `get_cost` analysis); no property proved about
the loop depends on the looked-up value, which only feeds `cf`. -/
def visitNeighbour (g : GridGraph) (cf : CostFunc α) (options : PathfindingOptions α)
    (start_vertex goal_vertex : GraphVertex) (current_vertex : VisitedGraphVertex α)
    (s : AState α) (direction : Direction) : AState α :=
  match g.get_neighbouring_vertex current_vertex direction with
  | none => s
  | some neighbour_vertex =>
    match mlookup s.closed_list neighbour_vertex with
    | some _ => s
    | none =>
      let vertex_cost := (g.get_cost neighbour_vertex).getD 0
      let calculated_cost :=
        cf start_vertex goal_vertex current_vertex neighbour_vertex vertex_cost options
      let visited_neighbour_vertex := neighbour_vertex.into_visited calculated_cost
      let parent' :=
        match mlookup s.parent_map neighbour_vertex with
        | none => (neighbour_vertex, current_vertex) :: s.parent_map
        | some p =>
            if fgtB p.cost current_vertex.cost then
              (neighbour_vertex, current_vertex) :: s.parent_map
            else s.parent_map
      { s with
        parent_map := parent'
        open_list := visited_neighbour_vertex :: s.open_list
        closed_list := (neighbour_vertex, current_vertex.cost) :: s.closed_list
        visit_neighbour_amount := s.visit_neighbour_amount + 1 }

/-- The `while let Some(current_vertex) = open_list.pop()` loop of
`execute_a_star`, with explicit fuel.  A popped vertex is recorded in the
visitation trace; the loop stops when the popped vertex equals the goal
(coordinate equality, via `PartialEq<GraphVertex> for
VisitedGraphVertex`), otherwise the four neighbours are processed and the
loop continues. -/
def runLoop (g : GridGraph) (cf : CostFunc α) (options : PathfindingOptions α)
    (start_vertex goal_vertex : GraphVertex) : Nat → AState α → AState α
  | 0, s => s
  | fuel + 1, s =>
    match heapPopMax s.open_list with
    | none => s
    | some (current_vertex, rest) =>
      let s1 : AState α :=
        { s with
          open_list := rest
          visited_vertices := s.visited_vertices ++ [current_vertex]
          visit_amount := s.visit_amount + 1 }
      if current_vertex.toVertex = goal_vertex then s1
      else
        runLoop g cf options start_vertex goal_vertex fuel
          (ALL_DIRECTIONS.foldl
            (visitNeighbour g cf options start_vertex goal_vertex current_vertex) s1)

/-- The state of `execute_a_star` just before the main loop: the start
vertex is pushed with cost `0.` and closed with cost `0.`. -/
def initState [Zero α] (start_vertex : GraphVertex) : AState α :=
  { open_list := [start_vertex.into_visited (some 0)]
    closed_list := [(start_vertex, some 0)]
    parent_map := []
    visited_vertices := []
    visit_amount := 0
    visit_neighbour_amount := 0 }

/-- The state at the end of the main loop.  The fuel
`width * height + 2` is sufficient (proved below: the loop pops at most
`width * height + 1` times), so this is the loop's true final state. -/
def finalState [Zero α] (g : GridGraph) (cf : CostFunc α) (options : PathfindingOptions α)
    (start_vertex goal_vertex : GraphVertex) : AState α :=
  runLoop g cf options start_vertex goal_vertex (g.width * g.height + 2)
    (initState start_vertex)

/-- The path-reconstruction `while parent_map.contains_key(..)` loop of
`execute_a_star`, with explicit fuel: collect `v`, then repeatedly follow
the parent-map entry of the current vertex's coordinate; the produced
list is in goal-to-start order (the caller reverses it).  `none` when the
fuel runs out with an entry still present (where the Rust loop would
still be running; proved below never to happen on search states). -/
def reconChain (parent_map : List (GraphVertex × VisitedGraphVertex α)) :
    Nat → VisitedGraphVertex α → Option (List (VisitedGraphVertex α))
  | 0, v =>
    match mlookup parent_map v.toVertex with
    | none => some [v]
    | some _ => none
  | fuel + 1, v =>
    match mlookup parent_map v.toVertex with
    | none => some [v]
    | some p => (reconChain parent_map fuel p).map (fun l => v :: l)

/-- Rust `PathResult` from `src/pathfinding.rs`. -/
structure PathResult (α : Type) where
  path : List (VisitedGraphVertex α)
  visited_vertices : List (VisitedGraphVertex α)
deriving DecidableEq, Repr

/-- Rust `execute_a_star` from `src/pathfinding.rs`: run the main loop, then
reconstruct the path backwards from the parent-map entry of the goal
(`None` — the no-path signal — when the goal has no entry) and reverse
it.  Reconstruction fuel `closed_list.length` is sufficient (proved
below), so the inner `none` of `reconChain` never fires on these
states. -/
def execute_a_star [Zero α] (g : GridGraph) (cf : CostFunc α)
    (options : PathfindingOptions α) (start_vertex goal_vertex : GraphVertex) :
    Option (PathResult α) :=
  let s := finalState g cf options start_vertex goal_vertex
  match mlookup s.parent_map goal_vertex with
  | none => none
  | some vertex =>
    (reconChain s.parent_map s.closed_list.length vertex).map
      (fun path_vertices =>
        { path := path_vertices.reverse
          visited_vertices := s.visited_vertices })

/-- 4-adjacency of two coordinates: they differ by one unit step in
exactly one axis. -/
def Adjacent (a b : GraphVertex) : Prop :=
  (a.x = b.x ∧ (a.y = b.y + 1 ∨ b.y = a.y + 1)) ∨
    (a.y = b.y ∧ (a.x = b.x + 1 ∨ b.x = a.x + 1))

instance (a b : GraphVertex) : Decidable (Adjacent a b) := by
  unfold Adjacent; infer_instance

/-! ### Basic lemmas about the map, measure and heap models -/

/-- Discovery-order measure of a key in the closed list: `0` when absent,
otherwise one plus the length of the rest of the list after the key's
(first) entry.  A key inserted later (nearer the head) has a strictly
larger measure, and consing a fresh entry leaves every other key's
measure unchanged. -/
def mval {β : Type} : List (GraphVertex × β) → GraphVertex → Nat
  | [], _ => 0
  | (k, _) :: rest, c => if k = c then rest.length + 1 else mval rest c

theorem mlookup_cons_self {β : Type} (m : List (GraphVertex × β)) (k : GraphVertex)
    (v : β) : mlookup ((k, v) :: m) k = some v := by
  simp [mlookup]

theorem mlookup_cons_ne {β : Type} (m : List (GraphVertex × β)) (k c : GraphVertex)
    (v : β) (h : k ≠ c) : mlookup ((k, v) :: m) c = mlookup m c := by
  simp [mlookup, h]

theorem mlookup_isSome_iff {β : Type} (m : List (GraphVertex × β)) (c : GraphVertex) :
    (mlookup m c).isSome = true ↔ c ∈ m.map Prod.fst := by
  induction m with
  | nil => simp [mlookup]
  | cons p rest ih =>
    obtain ⟨k, v⟩ := p
    by_cases h : k = c
    · subst h; simp [mlookup_cons_self]
    · rw [mlookup_cons_ne _ _ _ _ h]
      simp [ih, h, Ne.symm h]

theorem mval_le_length {β : Type} (m : List (GraphVertex × β)) (c : GraphVertex) :
    mval m c ≤ m.length := by
  induction m with
  | nil => simp [mval]
  | cons p rest ih =>
    obtain ⟨k, v⟩ := p
    by_cases h : k = c <;> simp [mval, h] <;> omega

theorem mval_pos_iff {β : Type} (m : List (GraphVertex × β)) (c : GraphVertex) :
    0 < mval m c ↔ (mlookup m c).isSome = true := by
  induction m with
  | nil => simp [mval, mlookup]
  | cons p rest ih =>
    obtain ⟨k, v⟩ := p
    by_cases h : k = c
    · subst h; simp [mval, mlookup_cons_self]
    · rw [mlookup_cons_ne _ _ _ _ h]; simp [mval, h, ih]

theorem mval_cons_self {β : Type} (m : List (GraphVertex × β)) (k : GraphVertex)
    (v : β) : mval ((k, v) :: m) k = m.length + 1 := by
  simp [mval]

theorem mval_cons_ne {β : Type} (m : List (GraphVertex × β)) (k c : GraphVertex)
    (v : β) (h : k ≠ c) : mval ((k, v) :: m) c = mval m c := by
  simp [mval, h]

theorem heapPopMax_mem [DecidableEq α] (l : List (VisitedGraphVertex α))
    (m : VisitedGraphVertex α) (rest : List (VisitedGraphVertex α))
    (h : heapPopMax l = some (m, rest)) : m ∈ l ∧ rest = l.erase m := by
  match l with
  | [] => simp [heapPopMax] at h
  | v :: tl =>
    have hfold : ∀ (t : List (VisitedGraphVertex α)) (a : VisitedGraphVertex α),
        t.foldl (fun a b => if vertexCmp b a = Ordering.gt then b else a) a ∈ a :: t := by
      intro t
      induction t with
      | nil => intro a; simp
      | cons b tb ih =>
        intro a
        simp only [List.foldl_cons]
        rcases List.mem_cons.mp (ih (if vertexCmp b a = Ordering.gt then b else a)) with
          hh | hh
        · rw [hh]
          by_cases hc : vertexCmp b a = Ordering.gt
          · simp [hc]
          · simp [hc]
        · exact List.mem_cons_of_mem _ (List.mem_cons_of_mem _ hh)
    simp only [heapPopMax, Option.some.injEq, Prod.mk.injEq] at h
    obtain ⟨hm, hr⟩ := h
    subst hm
    exact ⟨hfold tl v, hr.symm⟩

theorem heapPopMax_perm [DecidableEq α] (l : List (VisitedGraphVertex α))
    (m : VisitedGraphVertex α) (rest : List (VisitedGraphVertex α))
    (h : heapPopMax l = some (m, rest)) : l.Perm (m :: rest) := by
  obtain ⟨hmem, hrest⟩ := heapPopMax_mem l m rest h
  rw [hrest]
  exact List.perm_cons_erase hmem

theorem adjacent_symm (a b : GraphVertex) (h : Adjacent a b) : Adjacent b a := by
  unfold Adjacent at h ⊢
  tauto

theorem neighbour_inBounds (g : GridGraph) (v : VisitedGraphVertex α) (d : Direction)
    (n : GraphVertex) (h : g.get_neighbouring_vertex v d = some n) :
    n.x < g.width ∧ n.y < g.height := by
  simp only [GridGraph.get_neighbouring_vertex] at h
  split at h
  · exact absurd h (by simp)
  · rename_i hcond
    push_neg at hcond
    obtain ⟨h1, h2, h3, h4⟩ := hcond
    obtain rfl : n = ⟨((v.x : Int) + d.x).toNat, ((v.y : Int) + d.y).toNat⟩ := by
      simpa using h.symm
    refine ⟨?_, ?_⟩ <;> dsimp only <;> omega

theorem neighbour_adjacent (g : GridGraph) (v : VisitedGraphVertex α) (d : Direction)
    (n : GraphVertex) (hd : d ∈ ALL_DIRECTIONS)
    (h : g.get_neighbouring_vertex v d = some n) : Adjacent v.toVertex n := by
  simp only [GridGraph.get_neighbouring_vertex] at h
  split at h
  · exact absurd h (by simp)
  · rename_i hcond
    push_neg at hcond
    obtain ⟨h1, h2, h3, h4⟩ := hcond
    obtain rfl : n = ⟨((v.x : Int) + d.x).toNat, ((v.y : Int) + d.y).toNat⟩ := by
      simpa using h.symm
    simp only [ALL_DIRECTIONS, DIRECTION_UP, DIRECTION_DOWN, DIRECTION_LEFT,
      DIRECTION_RIGHT, List.mem_cons, List.mem_singleton, List.not_mem_nil,
      or_false] at hd
    unfold Adjacent VisitedGraphVertex.toVertex
    rcases hd with rfl | rfl | rfl | rfl <;> dsimp only at h1 h2 h3 h4 ⊢ <;> omega

/-- A duplicate-free list of coordinates that injects into `[0, N)` has
at most `N` elements. -/
theorem nodup_length_le (l : List GraphVertex) (f : GraphVertex → Nat) (N : Nat)
    (hnd : l.Nodup) (hb : ∀ c ∈ l, f c < N)
    (hinj : ∀ c ∈ l, ∀ c' ∈ l, f c = f c' → c = c') : l.length ≤ N := by
  have hmapnd : (l.map f).Nodup := List.Nodup.map_on hinj hnd
  have hsub : (l.map f).toFinset ⊆ Finset.range N := by
    intro x hx
    rw [List.mem_toFinset] at hx
    obtain ⟨c, hc, rfl⟩ := List.mem_map.mp hx
    exact Finset.mem_range.mpr (hb c hc)
  calc l.length = (l.map f).length := by simp
    _ = (l.map f).toFinset.card := (List.toFinset_card_of_nodup hmapnd).symm
    _ ≤ (Finset.range N).card := Finset.card_le_card hsub
    _ = N := Finset.card_range N

@[simp]
theorem toVertex_into_visited (n : GraphVertex) (c : Option α) :
    (n.into_visited c).toVertex = n := rfl

theorem mlookup_cons_isSome {β : Type} (m : List (GraphVertex × β)) (k c : GraphVertex)
    (v : β) (h : (mlookup m c).isSome = true) :
    (mlookup ((k, v) :: m) c).isSome = true := by
  by_cases hk : k = c
  · subst hk; simp [mlookup_cons_self]
  · rw [mlookup_cons_ne _ _ _ _ hk]; exact h

/-! ### The search-loop invariant -/

/-- Invariant of `execute_a_star`'s loop state, established at
initialisation and preserved by every iteration.  It packages: frontier
and trace elements are closed; no coordinate is pushed twice; closed keys
are duplicate-free and are the start or in-bounds; parent keys are closed
(so, with the vacancy guard, a parent entry is never overwritten); every
closed coordinate except the start has a parent entry; parent values are
closed, strictly earlier in discovery order than their key, and adjacent
to it; and the pop counter equals the trace length. -/
structure SearchInv (g : GridGraph) (start : GraphVertex) (s : AState α) : Prop where
  openClosed : ∀ v ∈ s.open_list, (mlookup s.closed_list v.toVertex).isSome = true
  visitedClosed : ∀ v ∈ s.visited_vertices,
    (mlookup s.closed_list v.toVertex).isSome = true
  pushNodup : ((s.open_list ++ s.visited_vertices).map VisitedGraphVertex.toVertex).Nodup
  closedNodup : (s.closed_list.map Prod.fst).Nodup
  closedDom : ∀ p ∈ s.closed_list, p.1 = start ∨ (p.1.x < g.width ∧ p.1.y < g.height)
  parentClosed : ∀ c, (mlookup s.parent_map c).isSome = true →
    (mlookup s.closed_list c).isSome = true
  closedParent : ∀ p ∈ s.closed_list, p.1 ≠ start →
    (mlookup s.parent_map p.1).isSome = true
  parentVal : ∀ c q, mlookup s.parent_map c = some q →
    (mlookup s.closed_list q.toVertex).isSome = true
  parentMeasure : ∀ c q, mlookup s.parent_map c = some q →
    mval s.closed_list q.toVertex < mval s.closed_list c
  parentAdj : ∀ c q, mlookup s.parent_map c = some q → Adjacent q.toVertex c
  visitCount : s.visit_amount = s.visited_vertices.length

theorem initState_inv [Zero α] (g : GridGraph) (start : GraphVertex) :
    SearchInv g start (initState (α := α) start) := by
  constructor <;> simp [initState, mlookup, mval, GraphVertex.into_visited,
    VisitedGraphVertex.toVertex]

theorem visitNeighbour_inv (g : GridGraph) (cf : CostFunc α)
    (options : PathfindingOptions α) (start_vertex goal_vertex : GraphVertex)
    (cur : VisitedGraphVertex α) (s : AState α) (d : Direction)
    (hd : d ∈ ALL_DIRECTIONS) (hInv : SearchInv g start_vertex s)
    (hcur : (mlookup s.closed_list cur.toVertex).isSome = true) :
    SearchInv g start_vertex (visitNeighbour g cf options start_vertex goal_vertex cur s d) ∧
    (mlookup (visitNeighbour g cf options start_vertex goal_vertex cur s d).closed_list
      cur.toVertex).isSome = true ∧
    (∀ c q, mlookup s.parent_map c = some q →
      mlookup (visitNeighbour g cf options start_vertex goal_vertex cur s d).parent_map c
        = some q) ∧
    (visitNeighbour g cf options start_vertex goal_vertex cur s d).visited_vertices
      = s.visited_vertices ∧
    (visitNeighbour g cf options start_vertex goal_vertex cur s d).visit_amount
      = s.visit_amount := by
  rcases hne : g.get_neighbouring_vertex cur d with _ | n
  · simp only [visitNeighbour, hne]
    exact ⟨hInv, hcur, fun c q h => h, trivial, trivial⟩
  rcases hvac : mlookup s.closed_list n with _ | w
  case some =>
    simp only [visitNeighbour, hne, hvac]
    exact ⟨hInv, hcur, fun c q h => h, trivial, trivial⟩
  case none =>
  have hn_not_mem : n ∉ s.closed_list.map Prod.fst := by
    intro hmem
    rw [← mlookup_isSome_iff] at hmem
    rw [hvac] at hmem
    simp at hmem
  have hpn : mlookup s.parent_map n = none := by
    rcases hp : mlookup s.parent_map n with _ | q
    · rfl
    · have := hInv.parentClosed n (by rw [hp]; rfl)
      rw [hvac] at this
      simp at this
  have hcurne : cur.toVertex ≠ n := by
    intro hEq
    rw [hEq, hvac] at hcur
    simp at hcur
  have key : visitNeighbour g cf options start_vertex goal_vertex cur s d =
      { s with
        parent_map := (n, cur) :: s.parent_map
        open_list := (n.into_visited
          (cf start_vertex goal_vertex cur n ((g.get_cost n).getD 0) options))
            :: s.open_list
        closed_list := (n, cur.cost) :: s.closed_list
        visit_neighbour_amount := s.visit_neighbour_amount + 1 } := by
    simp only [visitNeighbour, hne, hvac, hpn]
  rw [key]
  have hbounds := neighbour_inBounds g cur d n hne
  have hadj := neighbour_adjacent g cur d n hd hne
  refine ⟨?_, ?_, ?_, rfl, rfl⟩
  · constructor
    · intro v hv
      rcases List.mem_cons.mp hv with rfl | hv
      · simp [mlookup_cons_self]
      · exact mlookup_cons_isSome _ _ _ _ (hInv.openClosed v hv)
    · intro v hv
      exact mlookup_cons_isSome _ _ _ _ (hInv.visitedClosed v hv)
    · simp only [List.cons_append, List.map_cons, toVertex_into_visited]
      refine List.Nodup.cons ?_ hInv.pushNodup
      intro hmem
      rcases List.mem_map.mp hmem with ⟨v, hv, hveq⟩
      rcases List.mem_append.mp hv with hv | hv
      · have := hInv.openClosed v hv
        rw [hveq, hvac] at this
        simp at this
      · have := hInv.visitedClosed v hv
        rw [hveq, hvac] at this
        simp at this
    · simp only [List.map_cons]
      exact List.Nodup.cons hn_not_mem hInv.closedNodup
    · intro p hp
      rcases List.mem_cons.mp hp with rfl | hp
      · exact Or.inr hbounds
      · exact hInv.closedDom p hp
    · intro c hc
      by_cases hcn : n = c
      · subst hcn; simp [mlookup_cons_self]
      · rw [mlookup_cons_ne _ _ _ _ hcn] at hc
        exact mlookup_cons_isSome _ _ _ _ (hInv.parentClosed c hc)
    · intro p hp hne'
      rcases List.mem_cons.mp hp with rfl | hp
      · simp [mlookup_cons_self]
      · by_cases hcn : n = p.1
        · rw [← hcn]; simp [mlookup_cons_self]
        · rw [mlookup_cons_ne _ _ _ _ hcn]
          exact hInv.closedParent p hp hne'
    · intro c q hc
      by_cases hcn : n = c
      · subst hcn
        rw [mlookup_cons_self] at hc
        obtain rfl : cur = q := by simpa using hc
        exact mlookup_cons_isSome _ _ _ _ hcur
      · rw [mlookup_cons_ne _ _ _ _ hcn] at hc
        exact mlookup_cons_isSome _ _ _ _ (hInv.parentVal c q hc)
    · intro c q hc
      by_cases hcn : n = c
      · subst hcn
        rw [mlookup_cons_self] at hc
        obtain rfl : cur = q := by simpa using hc
        dsimp only
        rw [mval_cons_ne _ _ _ _ (Ne.symm hcurne), mval_cons_self]
        have := mval_le_length s.closed_list cur.toVertex
        omega
      · rw [mlookup_cons_ne _ _ _ _ hcn] at hc
        have hqmem : (mlookup s.closed_list q.toVertex).isSome = true :=
          hInv.parentVal c q hc
        have hqne : n ≠ q.toVertex := by
          intro hEq
          rw [← hEq, hvac] at hqmem
          simp at hqmem
        dsimp only
        rw [mval_cons_ne _ _ _ _ hqne, mval_cons_ne _ _ _ _ hcn]
        exact hInv.parentMeasure c q hc
    · intro c q hc
      by_cases hcn : n = c
      · subst hcn
        rw [mlookup_cons_self] at hc
        obtain rfl : cur = q := by simpa using hc
        exact hadj
      · rw [mlookup_cons_ne _ _ _ _ hcn] at hc
        exact hInv.parentAdj c q hc
    · exact hInv.visitCount
  · exact mlookup_cons_isSome _ _ _ _ hcur
  · intro c q hc
    by_cases hcn : n = c
    · subst hcn
      rw [hpn] at hc
      simp at hc
    · rw [mlookup_cons_ne _ _ _ _ hcn]
      exact hc

theorem popState_inv (g : GridGraph) (start : GraphVertex) (s : AState α)
    (cur : VisitedGraphVertex α) (rest : List (VisitedGraphVertex α))
    (h : SearchInv g start s) (hpop : heapPopMax s.open_list = some (cur, rest)) :
    SearchInv g start
      { s with
        open_list := rest
        visited_vertices := s.visited_vertices ++ [cur]
        visit_amount := s.visit_amount + 1 } ∧ cur ∈ s.open_list := by
  have hperm : s.open_list.Perm (cur :: rest) := heapPopMax_perm _ _ _ hpop
  have hcurmem : cur ∈ s.open_list := hperm.symm.subset (by simp)
  have hrest : ∀ v ∈ rest, v ∈ s.open_list := by
    intro v hv
    exact hperm.symm.subset (by simp [hv])
  refine ⟨?_, hcurmem⟩
  constructor
  · intro v hv
    exact h.openClosed v (hrest v hv)
  · intro v hv
    rcases List.mem_append.mp hv with hv | hv
    · exact h.visitedClosed v hv
    · obtain rfl : v = cur := by simpa using hv
      exact h.openClosed v hcurmem
  · dsimp only
    have hperm2 : (rest ++ (s.visited_vertices ++ [cur])).Perm
        (s.open_list ++ s.visited_vertices) := by
      have h2 : (rest ++ (s.visited_vertices ++ [cur])).Perm
          (cur :: (rest ++ s.visited_vertices)) := by
        rw [← List.append_assoc]
        exact List.perm_append_comm
      exact h2.trans ((hperm.append_right s.visited_vertices).symm)
    exact ((hperm2.map VisitedGraphVertex.toVertex).symm).nodup h.pushNodup
  · exact h.closedNodup
  · exact h.closedDom
  · exact h.parentClosed
  · exact h.closedParent
  · exact h.parentVal
  · exact h.parentMeasure
  · exact h.parentAdj
  · dsimp only
    rw [h.visitCount]
    simp

theorem foldNeighbours_inv (g : GridGraph) (cf : CostFunc α)
    (options : PathfindingOptions α) (start_vertex goal_vertex : GraphVertex)
    (cur : VisitedGraphVertex α) :
    ∀ (dirs : List Direction), (∀ d ∈ dirs, d ∈ ALL_DIRECTIONS) →
    ∀ (s : AState α), SearchInv g start_vertex s →
      (mlookup s.closed_list cur.toVertex).isSome = true →
      SearchInv g start_vertex
        (dirs.foldl (visitNeighbour g cf options start_vertex goal_vertex cur) s) ∧
      (∀ c q, mlookup s.parent_map c = some q →
        mlookup (dirs.foldl
          (visitNeighbour g cf options start_vertex goal_vertex cur) s).parent_map c
          = some q) ∧
      (dirs.foldl (visitNeighbour g cf options start_vertex goal_vertex cur)
        s).visited_vertices = s.visited_vertices ∧
      (dirs.foldl (visitNeighbour g cf options start_vertex goal_vertex cur)
        s).visit_amount = s.visit_amount := by
  intro dirs
  induction dirs with
  | nil => intro _ s h _; exact ⟨h, fun c q hq => hq, rfl, rfl⟩
  | cons d ds ih =>
    intro hdirs s h hc
    simp only [List.foldl_cons]
    obtain ⟨h1, h2, h3, h4, h5⟩ :=
      visitNeighbour_inv g cf options start_vertex goal_vertex cur s d
        (hdirs d (by simp)) h hc
    obtain ⟨g1, g2, g3, g4⟩ :=
      ih (fun d' hd' => hdirs d' (by simp [hd'])) _ h1 h2
    refine ⟨g1, ?_, ?_, ?_⟩
    · intro c q hq
      exact g2 c q (h3 c q hq)
    · rw [g3, h4]
    · rw [g4, h5]

theorem runLoop_inv (g : GridGraph) (cf : CostFunc α) (options : PathfindingOptions α)
    (start_vertex goal_vertex : GraphVertex) :
    ∀ (fuel : Nat) (s : AState α), SearchInv g start_vertex s →
      SearchInv g start_vertex
        (runLoop g cf options start_vertex goal_vertex fuel s) := by
  intro fuel
  induction fuel with
  | zero => intro s h; simpa [runLoop] using h
  | succ fuel ih =>
    intro s h
    rcases hpop : heapPopMax s.open_list with _ | ⟨cur, rest⟩
    · simpa [runLoop, hpop] using h
    · obtain ⟨hs1, hcurmem⟩ := popState_inv g start_vertex s cur rest h hpop
      have hcurclosed : (mlookup s.closed_list cur.toVertex).isSome = true :=
        h.openClosed cur hcurmem
      by_cases hgoal : cur.toVertex = goal_vertex
      · simp only [runLoop, hpop, hgoal, if_true]
        exact hs1
      · simp only [runLoop, hpop, if_neg hgoal]
        refine ih _ ?_
        exact (foldNeighbours_inv g cf options start_vertex goal_vertex cur
          ALL_DIRECTIONS (fun d hd => hd) _ hs1 hcurclosed).1

/-- The loop state after `k` iterations of the main loop (`k` beyond the
termination point leaves the state unchanged). -/
def searchState (g : GridGraph) (cf : CostFunc α) (options : PathfindingOptions α)
    (start_vertex goal_vertex : GraphVertex) [Zero α] (k : Nat) : AState α :=
  runLoop g cf options start_vertex goal_vertex k (initState start_vertex)

theorem searchState_inv [Zero α] (g : GridGraph) (cf : CostFunc α)
    (options : PathfindingOptions α) (start_vertex goal_vertex : GraphVertex)
    (k : Nat) :
    SearchInv g start_vertex (searchState g cf options start_vertex goal_vertex k) :=
  runLoop_inv g cf options start_vertex goal_vertex k _
    (initState_inv g start_vertex)

theorem runLoop_parent_mono (g : GridGraph) (cf : CostFunc α)
    (options : PathfindingOptions α) (start_vertex goal_vertex : GraphVertex) :
    ∀ (fuel : Nat) (s : AState α), SearchInv g start_vertex s →
      ∀ c q, mlookup s.parent_map c = some q →
        mlookup (runLoop g cf options start_vertex goal_vertex fuel s).parent_map c
          = some q := by
  intro fuel
  induction fuel with
  | zero => intro s _ c q hq; simpa [runLoop] using hq
  | succ fuel ih =>
    intro s h c q hq
    rcases hpop : heapPopMax s.open_list with _ | ⟨cur, rest⟩
    · simpa [runLoop, hpop] using hq
    · obtain ⟨hs1, hcurmem⟩ := popState_inv g start_vertex s cur rest h hpop
      have hcurclosed : (mlookup s.closed_list cur.toVertex).isSome = true :=
        h.openClosed cur hcurmem
      by_cases hgoal : cur.toVertex = goal_vertex
      · simpa [runLoop, hpop, hgoal] using hq
      · simp only [runLoop, hpop, if_neg hgoal]
        obtain ⟨g1, g2, _, _⟩ :=
          foldNeighbours_inv g cf options start_vertex goal_vertex cur
            ALL_DIRECTIONS (fun d hd => hd) _ hs1 hcurclosed
        exact ih _ g1 c q (g2 c q hq)

theorem runLoop_parent_mono2 (g : GridGraph) (cf : CostFunc α)
    (options : PathfindingOptions α) (start_vertex goal_vertex : GraphVertex) :
    ∀ (fuel m : Nat) (s : AState α), SearchInv g start_vertex s →
      ∀ c q,
        mlookup (runLoop g cf options start_vertex goal_vertex fuel s).parent_map c
          = some q →
        mlookup (runLoop g cf options start_vertex goal_vertex (fuel + m) s).parent_map
          c = some q := by
  intro fuel
  induction fuel with
  | zero =>
    intro m s h c q hq
    rw [Nat.zero_add]
    simp only [runLoop] at hq
    exact runLoop_parent_mono g cf options start_vertex goal_vertex m s h c q hq
  | succ fuel ih =>
    intro m s h c q hq
    rw [show fuel + 1 + m = (fuel + m) + 1 from by omega]
    rcases hpop : heapPopMax s.open_list with _ | ⟨cur, rest⟩
    · simp only [runLoop, hpop] at hq ⊢
      exact hq
    · obtain ⟨hs1, hcurmem⟩ := popState_inv g start_vertex s cur rest h hpop
      have hcurclosed : (mlookup s.closed_list cur.toVertex).isSome = true :=
        h.openClosed cur hcurmem
      by_cases hgoal : cur.toVertex = goal_vertex
      · simp only [runLoop, hpop, hgoal, if_true] at hq ⊢
        exact hq
      · simp only [runLoop, hpop, if_neg hgoal] at hq ⊢
        obtain ⟨g1, _, _, _⟩ :=
          foldNeighbours_inv g cf options start_vertex goal_vertex cur
            ALL_DIRECTIONS (fun d hd => hd) _ hs1 hcurclosed
        exact ih m _ g1 c q hq

theorem runLoop_stable (g : GridGraph) (cf : CostFunc α)
    (options : PathfindingOptions α) (start_vertex goal_vertex : GraphVertex) :
    ∀ (fuel m : Nat) (s : AState α), SearchInv g start_vertex s →
      (runLoop g cf options start_vertex goal_vertex fuel s).visited_vertices.length
        < s.visited_vertices.length + fuel →
      runLoop g cf options start_vertex goal_vertex (fuel + m) s
        = runLoop g cf options start_vertex goal_vertex fuel s := by
  intro fuel
  induction fuel with
  | zero =>
    intro m s _ hlen
    simp only [runLoop, Nat.add_zero] at hlen
    omega
  | succ fuel ih =>
    intro m s h hlen
    rw [show fuel + 1 + m = (fuel + m) + 1 from by omega]
    rcases hpop : heapPopMax s.open_list with _ | ⟨cur, rest⟩
    · simp only [runLoop, hpop]
    · obtain ⟨hs1, hcurmem⟩ := popState_inv g start_vertex s cur rest h hpop
      have hcurclosed : (mlookup s.closed_list cur.toVertex).isSome = true :=
        h.openClosed cur hcurmem
      by_cases hgoal : cur.toVertex = goal_vertex
      · simp only [runLoop, hpop, hgoal, if_true]
      · simp only [runLoop, hpop, if_neg hgoal] at hlen ⊢
        obtain ⟨g1, _, g3, _⟩ :=
          foldNeighbours_inv g cf options start_vertex goal_vertex cur
            ALL_DIRECTIONS (fun d hd => hd) _ hs1 hcurclosed
        refine ih m _ g1 ?_
        rw [g3]
        dsimp only
        rw [List.length_append]
        simp only [List.length_cons, List.length_nil] at hlen ⊢
        omega

theorem encode_lt (g : GridGraph) (c : GraphVertex)
    (h : c.x < g.width ∧ c.y < g.height) :
    c.y * g.width + c.x < g.width * g.height := by
  obtain ⟨hx, hy⟩ := h
  have h1 : c.y * g.width + c.x < (c.y + 1) * g.width := by
    rw [Nat.succ_mul]
    omega
  have h2 : (c.y + 1) * g.width ≤ g.height * g.width :=
    Nat.mul_le_mul_right _ hy
  rw [Nat.mul_comm g.width g.height]
  omega

theorem encode_inj (g : GridGraph) (c c' : GraphVertex)
    (hc : c.x < g.width ∧ c.y < g.height) (hc' : c'.x < g.width ∧ c'.y < g.height)
    (heq : c.y * g.width + c.x = c'.y * g.width + c'.x) : c = c' := by
  have hW : 0 < g.width := by omega
  have hx : c.x = c'.x := by
    have e1 : (c.x + g.width * c.y) % g.width = c.x % g.width :=
      Nat.add_mul_mod_self_left c.x g.width c.y
    have e2 : (c'.x + g.width * c'.y) % g.width = c'.x % g.width :=
      Nat.add_mul_mod_self_left c'.x g.width c'.y
    have e3 : c.x + g.width * c.y = c'.x + g.width * c'.y := by
      rw [Nat.mul_comm g.width c.y, Nat.mul_comm g.width c'.y]
      omega
    rw [e3, e2] at e1
    rw [Nat.mod_eq_of_lt hc.1, Nat.mod_eq_of_lt hc'.1] at e1
    exact e1.symm
  have hy : c.y = c'.y := by
    have : c.y * g.width = c'.y * g.width := by omega
    exact Nat.eq_of_mul_eq_mul_right hW this
  cases c; cases c'
  simp only [] at hx hy
  simp [hx, hy]

theorem coordList_length_le (g : GridGraph) (l : List GraphVertex) (hnd : l.Nodup)
    (hdom : ∀ c ∈ l, c.x < g.width ∧ c.y < g.height) :
    l.length ≤ g.width * g.height := by
  refine nodup_length_le l (fun c => c.y * g.width + c.x) _ hnd ?_ ?_
  · intro c hc
    exact encode_lt g c (hdom c hc)
  · intro c hc c' hc' heq
    exact encode_inj g c c' (hdom c hc) (hdom c' hc') heq

theorem coordList_length_le_succ (g : GridGraph) (start : GraphVertex)
    (l : List GraphVertex) (hnd : l.Nodup)
    (hdom : ∀ c ∈ l, c = start ∨ (c.x < g.width ∧ c.y < g.height)) :
    l.length ≤ g.width * g.height + 1 := by
  refine nodup_length_le l
    (fun c => if c = start then g.width * g.height else c.y * g.width + c.x)
    (g.width * g.height + 1) hnd ?_ ?_
  · intro c hc
    by_cases hcs : c = start
    · simp [hcs]
    · rcases hdom c hc with hcs' | hin
      · exact absurd hcs' hcs
      · simp only [if_neg hcs]
        have := encode_lt g c hin
        omega
  · intro c hc c' hc' heq
    dsimp only at heq
    by_cases hcs : c = start <;> by_cases hcs' : c' = start
    · rw [hcs, hcs']
    · rcases hdom c' hc' with h' | hin'
      · exact absurd h' hcs'
      · rw [if_pos hcs, if_neg hcs'] at heq
        have := encode_lt g c' hin'
        omega
    · rcases hdom c hc with h' | hin
      · exact absurd h' hcs
      · rw [if_neg hcs, if_pos hcs'] at heq
        have := encode_lt g c hin
        omega
    · rw [if_neg hcs, if_neg hcs'] at heq
      rcases hdom c hc with h' | hin
      · exact absurd h' hcs
      rcases hdom c' hc' with h'' | hin'
      · exact absurd h'' hcs'
      exact encode_inj g c c' hin hin' heq

theorem searchInv_closed_length (g : GridGraph) (start : GraphVertex) (s : AState α)
    (h : SearchInv g start s) : s.closed_list.length ≤ g.width * g.height + 1 := by
  have hlen : (s.closed_list.map Prod.fst).length = s.closed_list.length := by simp
  rw [← hlen]
  refine coordList_length_le_succ g start _ h.closedNodup ?_
  intro c hc
  obtain ⟨p, hp, rfl⟩ := List.mem_map.mp hc
  exact h.closedDom p hp

theorem searchInv_closed_length_inB (g : GridGraph) (start : GraphVertex)
    (s : AState α) (h : SearchInv g start s)
    (hs : start.x < g.width ∧ start.y < g.height) :
    s.closed_list.length ≤ g.width * g.height := by
  have hlen : (s.closed_list.map Prod.fst).length = s.closed_list.length := by simp
  rw [← hlen]
  refine coordList_length_le g _ h.closedNodup ?_
  intro c hc
  obtain ⟨p, hp, rfl⟩ := List.mem_map.mp hc
  rcases h.closedDom p hp with hps | hin
  · rw [hps]; exact hs
  · exact hin

theorem searchInv_push_length (g : GridGraph) (start : GraphVertex) (s : AState α)
    (h : SearchInv g start s) :
    s.open_list.length + s.visited_vertices.length ≤ g.width * g.height + 1 := by
  have hlen : ((s.open_list ++ s.visited_vertices).map
      VisitedGraphVertex.toVertex).length
      = s.open_list.length + s.visited_vertices.length := by simp
  rw [← hlen]
  refine coordList_length_le_succ g start _ h.pushNodup ?_
  intro c hc
  obtain ⟨v, hv, rfl⟩ := List.mem_map.mp hc
  have hsome : (mlookup s.closed_list v.toVertex).isSome = true := by
    rcases List.mem_append.mp hv with hv | hv
    · exact h.openClosed v hv
    · exact h.visitedClosed v hv
  have hmem := (mlookup_isSome_iff s.closed_list v.toVertex).mp hsome
  obtain ⟨p, hp, hpe⟩ := List.mem_map.mp hmem
  rw [← hpe]
  exact h.closedDom p hp

theorem searchInv_push_length_inB (g : GridGraph) (start : GraphVertex) (s : AState α)
    (h : SearchInv g start s) (hs : start.x < g.width ∧ start.y < g.height) :
    s.open_list.length + s.visited_vertices.length ≤ g.width * g.height := by
  have hlen : ((s.open_list ++ s.visited_vertices).map
      VisitedGraphVertex.toVertex).length
      = s.open_list.length + s.visited_vertices.length := by simp
  rw [← hlen]
  refine coordList_length_le g _ h.pushNodup ?_
  intro c hc
  obtain ⟨v, hv, rfl⟩ := List.mem_map.mp hc
  have hsome : (mlookup s.closed_list v.toVertex).isSome = true := by
    rcases List.mem_append.mp hv with hv | hv
    · exact h.openClosed v hv
    · exact h.visitedClosed v hv
  have hmem := (mlookup_isSome_iff s.closed_list v.toVertex).mp hsome
  obtain ⟨p, hp, hpe⟩ := List.mem_map.mp hmem
  rw [← hpe]
  rcases h.closedDom p hp with hps | hin
  · rw [hps]; exact hs
  · exact hin

theorem finalState_stable [Zero α] (g : GridGraph) (cf : CostFunc α)
    (options : PathfindingOptions α) (start_vertex goal_vertex : GraphVertex)
    (m : Nat) :
    runLoop g cf options start_vertex goal_vertex (g.width * g.height + 2 + m)
      (initState start_vertex) = finalState g cf options start_vertex goal_vertex := by
  have hInv := searchState_inv g cf options start_vertex goal_vertex
    (g.width * g.height + 2)
  have hlen := searchInv_push_length g start_vertex _ hInv
  refine runLoop_stable g cf options start_vertex goal_vertex
    (g.width * g.height + 2) m (initState start_vertex)
    (initState_inv g start_vertex) ?_
  have hinit : (initState (α := α) start_vertex).visited_vertices.length = 0 := rfl
  rw [hinit]
  simp only [searchState] at hlen
  omega

theorem reconChain_isSome (parent_map : List (GraphVertex × VisitedGraphVertex α))
    (closed_list : List (GraphVertex × Option α))
    (hpc : ∀ c, (mlookup parent_map c).isSome = true →
      (mlookup closed_list c).isSome = true)
    (hm : ∀ c q, mlookup parent_map c = some q →
      mval closed_list q.toVertex < mval closed_list c) :
    ∀ (fuel : Nat) (v : VisitedGraphVertex α),
      mval closed_list v.toVertex ≤ fuel →
      (reconChain parent_map fuel v).isSome = true := by
  intro fuel
  induction fuel with
  | zero =>
    intro v hv
    rcases hp : mlookup parent_map v.toVertex with _ | p
    · simp [reconChain, hp]
    · exfalso
      have h1 : (mlookup closed_list v.toVertex).isSome = true :=
        hpc v.toVertex (by rw [hp]; rfl)
      have h2 := (mval_pos_iff closed_list v.toVertex).mpr h1
      omega
  | succ fuel ih =>
    intro v hv
    rcases hp : mlookup parent_map v.toVertex with _ | p
    · simp [reconChain, hp]
    · have hrec : (reconChain parent_map fuel p).isSome = true := by
        refine ih p ?_
        have := hm v.toVertex p hp
        omega
      rcases Option.isSome_iff_exists.mp hrec with ⟨l', hl'⟩
      simp [reconChain, hp, hl']

theorem reconChain_spec (parent_map : List (GraphVertex × VisitedGraphVertex α)) :
    ∀ (fuel : Nat) (v : VisitedGraphVertex α) (l : List (VisitedGraphVertex α)),
      reconChain parent_map fuel v = some l →
      l.head? = some v ∧
      List.Chain' (fun a b => mlookup parent_map a.toVertex = some b) l ∧
      (∃ e, l.getLast? = some e ∧ mlookup parent_map e.toVertex = none) ∧
      (∀ x ∈ l, x = v ∨ ∃ c, mlookup parent_map c = some x) := by
  intro fuel
  induction fuel with
  | zero =>
    intro v l h
    rcases hp : mlookup parent_map v.toVertex with _ | p
    · simp only [reconChain, hp, Option.some.injEq] at h
      subst h
      refine ⟨rfl, by simp, ⟨v, rfl, hp⟩, ?_⟩
      intro x hx
      left
      simpa using hx
    · simp [reconChain, hp] at h
  | succ fuel ih =>
    intro v l h
    rcases hp : mlookup parent_map v.toVertex with _ | p
    · simp only [reconChain, hp, Option.some.injEq] at h
      subst h
      refine ⟨rfl, by simp, ⟨v, rfl, hp⟩, ?_⟩
      intro x hx
      left
      simpa using hx
    · simp only [reconChain, hp] at h
      rcases hrc : reconChain parent_map fuel p with _ | l'
      · rw [hrc] at h; simp at h
      · rw [hrc] at h
        simp at h
        subst h
        obtain ⟨ih1, ih2, ⟨e, ihe, ihen⟩, ih4⟩ := ih p l' hrc
        have hl' : ∃ p' t, l' = p' :: t := by
          cases l' with
          | nil => simp at ih1
          | cons a t => exact ⟨a, t, rfl⟩
        obtain ⟨p', t, rfl⟩ := hl'
        obtain rfl : p' = p := by simpa using ih1
        refine ⟨rfl, ?_, ⟨e, ?_, ihen⟩, ?_⟩
        · exact List.Chain'.cons hp ih2
        · rw [List.getLast?_cons_cons]
          exact ihe
        · intro x hx
          rcases List.mem_cons.mp hx with rfl | hx
          · exact Or.inl rfl
          · rcases ih4 x hx with rfl | hex
            · exact Or.inr ⟨v.toVertex, hp⟩
            · exact Or.inr hex

/-! ### Claim theorems -/

/-- Claim C1, counterexample: on the 2×2 all-ones grid with start `(0,0)`
and goal `(1,0)` under the uniform-cost strategy, `execute_a_star`
returns a path whose only element is `(0,0)` — its last element's
coordinate is the start, not the goal, so the claim "the last element's
coordinate equals the goal vertex" is false. -/
theorem claim1_counterexample :
    (execute_a_star ⟨2, 2, [[1, 1], [1, 1]]⟩ (zero_cost_function : CostFunc ℤ)
        ⟨some 1, some 1⟩ ⟨0, 0⟩ ⟨1, 0⟩).map
      (fun pr => pr.path.map VisitedGraphVertex.toVertex) = some [⟨0, 0⟩] ∧
    (⟨0, 0⟩ : GraphVertex) ≠ ⟨1, 0⟩ := by
  constructor
  · decide
  · decide

/-- Claim C1, amended: whenever `execute_a_star` returns a path, the
path is non-empty, its first element's coordinate is the start vertex,
consecutive elements are 4-adjacent, and its last element is the
goal's recorded predecessor — 4-adjacent to the goal, but the goal
itself is not an element of the returned path. -/
theorem claim1_path_endpoints {α : Type} [LinearOrder α] [Zero α] (g : GridGraph)
    (cf : CostFunc α) (options : PathfindingOptions α)
    (start_vertex goal_vertex : GraphVertex) (pr : PathResult α)
    (h : execute_a_star g cf options start_vertex goal_vertex = some pr) :
    (∃ h0, pr.path.head? = some h0 ∧ h0.toVertex = start_vertex) ∧
    List.Chain' (fun a b => Adjacent a.toVertex b.toVertex) pr.path ∧
    (∃ lz, pr.path.getLast? = some lz ∧ Adjacent lz.toVertex goal_vertex ∧
      mlookup (finalState g cf options start_vertex goal_vertex).parent_map
        goal_vertex = some lz) := by
  have hInv : SearchInv g start_vertex
      (finalState g cf options start_vertex goal_vertex) :=
    searchState_inv g cf options start_vertex goal_vertex (g.width * g.height + 2)
  simp only [execute_a_star] at h
  rcases hgp : mlookup (finalState g cf options start_vertex goal_vertex).parent_map
      goal_vertex with _ | v0
  · rw [hgp] at h; simp at h
  rw [hgp] at h
  dsimp only at h
  rcases hrc : reconChain
      (finalState g cf options start_vertex goal_vertex).parent_map
      (finalState g cf options start_vertex goal_vertex).closed_list.length v0
    with _ | l
  · rw [hrc] at h; simp at h
  rw [hrc] at h
  simp only [Option.map, Option.some.injEq] at h
  obtain ⟨hhead, hchain, ⟨e, helast, henone⟩, hmem⟩ :=
    reconChain_spec _ _ v0 l hrc
  have hpath : pr.path = l.reverse := by rw [← h]
  have hvis : e ∈ l := by
    have hmemo : e ∈ l.getLast? := Option.mem_def.mpr helast
    obtain ⟨h9, rfl⟩ := List.mem_getLast?_eq_getLast hmemo
    exact List.getLast_mem h9
  have heclosed : (mlookup
      (finalState g cf options start_vertex goal_vertex).closed_list
      e.toVertex).isSome = true := by
    rcases hmem e hvis with rfl | ⟨c, hc⟩
    · exact hInv.parentVal goal_vertex e hgp
    · exact hInv.parentVal c e hc
  have hestart : e.toVertex = start_vertex := by
    by_contra hne
    have hkeys := (mlookup_isSome_iff _ _).mp heclosed
    obtain ⟨p, hp, hpe⟩ := List.mem_map.mp hkeys
    have := hInv.closedParent p hp (by rw [hpe]; exact hne)
    rw [hpe, henone] at this
    simp at this
  refine ⟨⟨e, ?_, hestart⟩, ?_, ⟨v0, ?_, ?_, rfl⟩⟩
  · rw [hpath, List.head?_reverse, helast]
  · rw [hpath]
    refine (List.chain'_reverse).mpr ?_
    refine List.Chain'.imp ?_ hchain
    intro a b hr
    exact hInv.parentAdj a.toVertex b hr
  · rw [hpath, List.getLast?_reverse, hhead]
  · exact hInv.parentAdj goal_vertex v0 hgp

/-- Claim C2: contrary to the specification, `execute_a_star` with
`start_vertex == goal_vertex` returns the no-path signal `None` on every
grid with every cost function: the popped start equals the goal and the
loop breaks before any neighbour is expanded, so the goal (= start) never
receives a parent-map entry and path reconstruction bails out.  This
theorem documents the code's actual behaviour at the failing input
class. -/
theorem claim2_start_eq_goal {α : Type} [LinearOrder α] [Zero α] (g : GridGraph)
    (cf : CostFunc α) (options : PathfindingOptions α) (v : GraphVertex) :
    execute_a_star g cf options v v = none := by
  have h1 : finalState g cf options v v =
      { open_list := []
        closed_list := [(v, some 0)]
        parent_map := []
        visited_vertices := [v.into_visited (some 0)]
        visit_amount := 1
        visit_neighbour_amount := 0 } := by
    unfold finalState
    rw [show g.width * g.height + 2 = (g.width * g.height + 1) + 1 from rfl]
    simp [runLoop, initState, heapPopMax, List.erase_cons_head]
  simp [execute_a_star, h1, mlookup]

/-- Claim C3: `execute_a_star` returns `None` exactly when, at the end
of the main loop, the goal vertex has no entry in the parent map; when an
entry exists, reconstruction always succeeds (the chain is acyclic), so
this is the sole failure condition and it is an explicit `None`, not a
panic. -/
theorem claim3_none_iff {α : Type} [LinearOrder α] [Zero α] (g : GridGraph)
    (cf : CostFunc α) (options : PathfindingOptions α)
    (start_vertex goal_vertex : GraphVertex) :
    execute_a_star g cf options start_vertex goal_vertex = none ↔
      mlookup (finalState g cf options start_vertex goal_vertex).parent_map
        goal_vertex = none := by
  have hInv : SearchInv g start_vertex
      (finalState g cf options start_vertex goal_vertex) :=
    searchState_inv g cf options start_vertex goal_vertex (g.width * g.height + 2)
  rcases hgp : mlookup (finalState g cf options start_vertex goal_vertex).parent_map
      goal_vertex with _ | v0
  · simp [execute_a_star, hgp]
  · have hsome : (reconChain
        (finalState g cf options start_vertex goal_vertex).parent_map
        (finalState g cf options start_vertex goal_vertex).closed_list.length
        v0).isSome = true :=
      reconChain_isSome _ _ hInv.parentClosed hInv.parentMeasure _ v0
        (mval_le_length _ _)
    rcases Option.isSome_iff_exists.mp hsome with ⟨l, hl⟩
    simp [execute_a_star, hgp, hl]

/-- Claim C4, counterexample: the 1×2 grid whose tile storage is two
rows of length one (exactly how `main.rs` builds it) and the coordinate
`(0,1)`, which satisfies the claimed precondition `x < width ∧
y < height`, make `GridGraph::get_cost` index out of range (the model's
`none`; a panic in Rust), so the panic branch is reachable under the
claimed precondition. -/
theorem claim4_counterexample :
    (GridGraph.mk 1 2 [[5], [7]]).get_cost ⟨0, 1⟩ = none ∧ 0 < 1 ∧ 1 < 2 := by
  constructor
  · decide
  · decide

/-- Claim C4, amended: for a grid whose tile storage has `height` rows
of length `width` (as the caller builds it), `get_cost` — which indexes
the outer list by `x` and the row by `y` — performs a safe access
exactly when `x < height ∧ y < width`; under the claim's precondition
`x < width ∧ y < height` this holds in general only when the grid is
square. -/
theorem claim4_safe_iff (g : GridGraph) (v : GraphVertex)
    (hrows : g.tiles.length = g.height)
    (hlen : ∀ row ∈ g.tiles, row.length = g.width) :
    (g.get_cost v).isSome = true ↔ (v.x < g.height ∧ v.y < g.width) := by
  rcases hx : g.tiles.get? v.x with _ | row
  · have hge : g.tiles.length ≤ v.x := List.get?_eq_none.mp hx
    constructor
    · intro hsome
      rw [GridGraph.get_cost, hx] at hsome
      simp at hsome
    · intro hin
      omega
  · have hxlt : v.x < g.tiles.length := by
      by_contra hge
      push_neg at hge
      rw [List.get?_eq_none.mpr hge] at hx
      simp at hx
    have hrlen : row.length = g.width := hlen row (List.get?_mem hx)
    rw [GridGraph.get_cost, hx]
    simp only [Option.some_bind]
    constructor
    · intro hsome
      have hylt : v.y < row.length := by
        by_contra hge
        push_neg at hge
        rw [List.get?_eq_none.mpr hge] at hsome
        simp at hsome
      omega
    · intro hin
      have hylt : v.y < row.length := by omega
      rw [List.get?_eq_get hylt]
      rfl

/-- Claim C5: at every point of the run (after `k` loop iterations, any
`k`), every frontier entry's coordinate is already in the closed set
(closed-on-discovery), and the coordinates ever pushed — the current
frontier plus the popped trace — are pairwise distinct, i.e. every
coordinate is pushed onto the frontier at most once. -/
theorem claim5_closed_on_discovery {α : Type} [LinearOrder α] [Zero α]
    (g : GridGraph) (cf : CostFunc α) (options : PathfindingOptions α)
    (start_vertex goal_vertex : GraphVertex) (k : Nat) :
    (∀ v ∈ (searchState g cf options start_vertex goal_vertex k).open_list,
      (mlookup (searchState g cf options start_vertex goal_vertex k).closed_list
        v.toVertex).isSome = true) ∧
    (((searchState g cf options start_vertex goal_vertex k).open_list ++
        (searchState g cf options start_vertex goal_vertex k).visited_vertices).map
      VisitedGraphVertex.toVertex).Nodup := by
  have h := searchState_inv g cf options start_vertex goal_vertex k
  exact ⟨h.openClosed, h.pushNodup⟩

/-- Claim C5 witness at a concrete state of a concrete run. -/
theorem claim5_witness :
    (mlookup (searchState ⟨2, 2, [[1, 1], [1, 1]]⟩ (zero_cost_function : CostFunc ℤ)
        ⟨some 1, some 1⟩ ⟨0, 0⟩ ⟨1, 0⟩ 1).closed_list
      (VisitedGraphVertex.toVertex ⟨1, 0, some 1⟩)).isSome = true :=
  (claim5_closed_on_discovery ⟨2, 2, [[1, 1], [1, 1]]⟩
    (zero_cost_function : CostFunc ℤ) ⟨some 1, some 1⟩ ⟨0, 0⟩ ⟨1, 0⟩ 1).1
    ⟨1, 0, some 1⟩ (by decide)

/-- Claim C6: at every point of the run, each parent-map entry's
recorded predecessor was closed strictly earlier (smaller discovery
measure) than its key, so the parent map is acyclic; consequently the
path-reconstruction loop terminates from any starting vertex within
`closed_list.length` steps. -/
theorem claim6_parent_acyclic {α : Type} [LinearOrder α] [Zero α] (g : GridGraph)
    (cf : CostFunc α) (options : PathfindingOptions α)
    (start_vertex goal_vertex : GraphVertex) (k : Nat) :
    (∀ c q, mlookup (searchState g cf options start_vertex goal_vertex k).parent_map
        c = some q →
      mval (searchState g cf options start_vertex goal_vertex k).closed_list
          q.toVertex
        < mval (searchState g cf options start_vertex goal_vertex k).closed_list c) ∧
    (∀ v : VisitedGraphVertex α,
      (reconChain (searchState g cf options start_vertex goal_vertex k).parent_map
        (searchState g cf options start_vertex goal_vertex k).closed_list.length
        v).isSome = true) := by
  have h := searchState_inv g cf options start_vertex goal_vertex k
  exact ⟨h.parentMeasure, fun v =>
    reconChain_isSome _ _ h.parentClosed h.parentMeasure _ v (mval_le_length _ _)⟩

/-- Claim C6 witness at a concrete state of a concrete run. -/
theorem claim6_witness :
    mval (searchState ⟨2, 2, [[1, 1], [1, 1]]⟩ (zero_cost_function : CostFunc ℤ)
        ⟨some 1, some 1⟩ ⟨0, 0⟩ ⟨1, 0⟩ 1).closed_list
      (VisitedGraphVertex.toVertex ⟨0, 0, some 0⟩)
    < mval (searchState ⟨2, 2, [[1, 1], [1, 1]]⟩ (zero_cost_function : CostFunc ℤ)
        ⟨some 1, some 1⟩ ⟨0, 0⟩ ⟨1, 0⟩ 1).closed_list ⟨1, 0⟩ :=
  (claim6_parent_acyclic ⟨2, 2, [[1, 1], [1, 1]]⟩ (zero_cost_function : CostFunc ℤ)
    ⟨some 1, some 1⟩ ⟨0, 0⟩ ⟨1, 0⟩ 1).1 ⟨1, 0⟩ ⟨0, 0, some 0⟩ (by decide)

/-- Claim C7: at every point of the run the parent map's keys are a
subset of the closed set's keys, so a coordinate that passes the vacancy
check on the closed list has no parent entry either — the insert branch
is always taken with a fresh key, the overwrite comparison never fires —
and once written, a parent entry never changes for the rest of the
run. -/
theorem claim7_parent_written_once {α : Type} [LinearOrder α] [Zero α]
    (g : GridGraph) (cf : CostFunc α) (options : PathfindingOptions α)
    (start_vertex goal_vertex : GraphVertex) (k : Nat) :
    (∀ c, (mlookup (searchState g cf options start_vertex goal_vertex k).parent_map
        c).isSome = true →
      (mlookup (searchState g cf options start_vertex goal_vertex k).closed_list
        c).isSome = true) ∧
    (∀ c, mlookup (searchState g cf options start_vertex goal_vertex k).closed_list c
        = none →
      mlookup (searchState g cf options start_vertex goal_vertex k).parent_map c
        = none) ∧
    (∀ (m : Nat) c q,
      mlookup (searchState g cf options start_vertex goal_vertex k).parent_map c
        = some q →
      mlookup (searchState g cf options start_vertex goal_vertex (k + m)).parent_map c
        = some q) := by
  have h := searchState_inv g cf options start_vertex goal_vertex k
  refine ⟨h.parentClosed, ?_, ?_⟩
  · intro c hc
    rcases hp : mlookup
        (searchState g cf options start_vertex goal_vertex k).parent_map c
      with _ | q
    · rfl
    · have := h.parentClosed c (by rw [hp]; rfl)
      rw [hc] at this
      simp at this
  · intro m c q hq
    exact runLoop_parent_mono2 g cf options start_vertex goal_vertex k m
      (initState start_vertex) (initState_inv g start_vertex) c q hq

/-- Claim C7 witness at a concrete state of a concrete run. -/
theorem claim7_witness :
    mlookup (searchState ⟨2, 2, [[1, 1], [1, 1]]⟩ (zero_cost_function : CostFunc ℤ)
        ⟨some 1, some 1⟩ ⟨0, 0⟩ ⟨1, 0⟩ (1 + 1)).parent_map ⟨1, 0⟩
      = some ⟨0, 0, some 0⟩ :=
  (claim7_parent_written_once ⟨2, 2, [[1, 1], [1, 1]]⟩
    (zero_cost_function : CostFunc ℤ) ⟨some 1, some 1⟩ ⟨0, 0⟩ ⟨1, 0⟩ 1).2.2 1
    ⟨1, 0⟩ ⟨0, 0, some 0⟩ (by decide)

/-- Claim C8: at every point of the run, every coordinate of the closed
set other than the start vertex has an entry in the parent map. -/
theorem claim8_closed_has_parent {α : Type} [LinearOrder α] [Zero α]
    (g : GridGraph) (cf : CostFunc α) (options : PathfindingOptions α)
    (start_vertex goal_vertex : GraphVertex) (k : Nat) :
    ∀ c ∈ (searchState g cf options start_vertex goal_vertex k).closed_list.map
        Prod.fst, c ≠ start_vertex →
      (mlookup (searchState g cf options start_vertex goal_vertex k).parent_map
        c).isSome = true := by
  have h := searchState_inv g cf options start_vertex goal_vertex k
  intro c hc hne
  obtain ⟨p, hp, rfl⟩ := List.mem_map.mp hc
  exact h.closedParent p hp hne

/-- Claim C8 witness at a concrete state of a concrete run. -/
theorem claim8_witness :
    (mlookup (searchState ⟨2, 2, [[1, 1], [1, 1]]⟩ (zero_cost_function : CostFunc ℤ)
        ⟨some 1, some 1⟩ ⟨0, 0⟩ ⟨1, 0⟩ 1).parent_map ⟨1, 0⟩).isSome = true :=
  claim8_closed_has_parent ⟨2, 2, [[1, 1], [1, 1]]⟩
    (zero_cost_function : CostFunc ℤ) ⟨some 1, some 1⟩ ⟨0, 0⟩ ⟨1, 0⟩ 1
    ⟨1, 0⟩ (by decide) (by decide)

/-- Claim C9: the `Ord` instance of `VisitedGraphVertex` is a total
function (no panic: the `unwrap_or(Equal)` default absorbs the NaN
case); it answers `Greater` whenever `a.cost < b.cost` holds as a float
comparison (so the max-heap pops a lowest-cost entry first), and two
entries whose costs are incomparable because one is NaN compare as
equal. -/
theorem claim9_cmp_total {α : Type} [LinearOrder α] (a b : VisitedGraphVertex α) :
    (fltB a.cost b.cost = true → vertexCmp a b = Ordering.gt) ∧
    ((a.cost = none ∨ b.cost = none) → vertexCmp a b = Ordering.eq) := by
  constructor
  · intro hc
    rcases ha : a.cost with _ | x
    · rw [ha] at hc; simp [fltB] at hc
    rcases hb : b.cost with _ | y
    · rw [ha, hb] at hc; simp [fltB] at hc
    rw [ha, hb] at hc
    simp only [fltB, decide_eq_true_eq] at hc
    simp [vertexCmp, vertexPcmp, fpcmp, ha, hb, hc, Ordering.swap]
  · intro h
    rcases h with h | h
    · rcases hb : b.cost with _ | y <;> simp [vertexCmp, vertexPcmp, fpcmp, h, hb]
    · rcases ha : a.cost with _ | x <;> simp [vertexCmp, vertexPcmp, fpcmp, h, ha]

/-- Claim C9 witness at concrete vertices (one strict comparison, one
NaN operand). -/
theorem claim9_witness :
    vertexCmp (⟨0, 0, some (0 : ℤ)⟩ : VisitedGraphVertex ℤ) ⟨1, 0, some 1⟩
      = Ordering.gt ∧
    vertexCmp (⟨0, 0, (none : Option ℤ)⟩ : VisitedGraphVertex ℤ) ⟨1, 0, some 1⟩
      = Ordering.eq :=
  ⟨(claim9_cmp_total ⟨0, 0, some 0⟩ ⟨1, 0, some 1⟩).1 (by decide),
    (claim9_cmp_total ⟨0, 0, none⟩ ⟨1, 0, some 1⟩).2 (Or.inl rfl)⟩

/-- Claim C10: with an in-bounds start vertex, at every point of the run
the pop counter, the frontier and the closed set are all bounded by
`width * height`, and the main loop terminates: running it with fuel
`width * height + 2 + k` (any `k`) gives the same state as the fuel
`execute_a_star` uses, so the loop performs at most `width * height` pop
iterations. -/
theorem claim10_bounds {α : Type} [LinearOrder α] [Zero α] (g : GridGraph)
    (cf : CostFunc α) (options : PathfindingOptions α)
    (start_vertex goal_vertex : GraphVertex)
    (hs : start_vertex.x < g.width ∧ start_vertex.y < g.height) (k : Nat) :
    (searchState g cf options start_vertex goal_vertex k).visit_amount
      ≤ g.width * g.height ∧
    (searchState g cf options start_vertex goal_vertex k).open_list.length
      ≤ g.width * g.height ∧
    (searchState g cf options start_vertex goal_vertex k).closed_list.length
      ≤ g.width * g.height ∧
    runLoop g cf options start_vertex goal_vertex (g.width * g.height + 2 + k)
      (initState start_vertex) = finalState g cf options start_vertex goal_vertex := by
  have h := searchState_inv g cf options start_vertex goal_vertex k
  have hpush := searchInv_push_length_inB g start_vertex _ h hs
  have hclosed := searchInv_closed_length_inB g start_vertex _ h hs
  refine ⟨?_, ?_, hclosed,
    finalState_stable g cf options start_vertex goal_vertex k⟩
  · rw [h.visitCount]; omega
  · omega

/-- Claim C10 witness at a concrete run. -/
theorem claim10_witness :
    (searchState ⟨2, 2, [[1, 1], [1, 1]]⟩ (zero_cost_function : CostFunc ℤ)
      ⟨some 1, some 1⟩ ⟨0, 0⟩ ⟨1, 0⟩ 1).visit_amount ≤ 2 * 2 :=
  (claim10_bounds ⟨2, 2, [[1, 1], [1, 1]]⟩ (zero_cost_function : CostFunc ℤ)
    ⟨some 1, some 1⟩ ⟨0, 0⟩ ⟨1, 0⟩ (by decide) 1).1

/-- Claim C1 witness: the amended endpoint/adjacency statement
instantiated at the concrete 2×2 run. -/
theorem claim1_witness :
    (∃ h0, (PathResult.mk [(⟨0, 0, some 0⟩ : VisitedGraphVertex ℤ)]
        [⟨0, 0, some 0⟩, ⟨1, 0, some 1⟩]).path.head? = some h0 ∧
        h0.toVertex = ⟨0, 0⟩) ∧
    List.Chain' (fun a b => Adjacent a.toVertex b.toVertex)
      (PathResult.mk [(⟨0, 0, some 0⟩ : VisitedGraphVertex ℤ)]
        [⟨0, 0, some 0⟩, ⟨1, 0, some 1⟩]).path ∧
    (∃ lz, (PathResult.mk [(⟨0, 0, some 0⟩ : VisitedGraphVertex ℤ)]
        [⟨0, 0, some 0⟩, ⟨1, 0, some 1⟩]).path.getLast? = some lz ∧
      Adjacent lz.toVertex ⟨1, 0⟩ ∧
      mlookup (finalState ⟨2, 2, [[1, 1], [1, 1]]⟩ (zero_cost_function : CostFunc ℤ)
        ⟨some 1, some 1⟩ ⟨0, 0⟩ ⟨1, 0⟩).parent_map ⟨1, 0⟩ = some lz) :=
  claim1_path_endpoints ⟨2, 2, [[1, 1], [1, 1]]⟩ (zero_cost_function : CostFunc ℤ)
    ⟨some 1, some 1⟩ ⟨0, 0⟩ ⟨1, 0⟩
    (PathResult.mk [⟨0, 0, some 0⟩] [⟨0, 0, some 0⟩, ⟨1, 0, some 1⟩]) (by decide)

/-- Claim C4 witness: the amended in-bounds condition instantiated at a
square grid. -/
theorem claim4_witness :
    ((GridGraph.mk 2 2 [[1, 2], [3, 4]]).get_cost ⟨1, 0⟩).isSome = true ↔
      (1 < 2 ∧ 0 < 2) :=
  claim4_safe_iff ⟨2, 2, [[1, 2], [3, 4]]⟩ ⟨1, 0⟩ (by decide) (by decide)
